import Mathlib

/-!
Verification of the m3x repository against its specification.

Part 1: the extended-duration parser (src/time/duration.go).
Part 2: the retrier's attempt loop (src/retry/retry.go).
Part 3: the time-range iterator (src/time/range_iter.go).
Part 4: the Watchable/Watch/Source broadcast core (package watch; the
implementation file is absent from the source tree, only its test
src/watch/source_test.go is present, so the core is modelled from the
specification, section by section).

Machine integers are modelled as mathematical integers reduced modulo 2^64
where Go's 64-bit wraparound can occur.
-/

namespace M3x

/-! ### Part 1: src/time/duration.go -/

/-- Two's-complement wraparound of Go's 64-bit signed arithmetic
(`int` / `int64` / `time.Duration` on a 64-bit platform). -/
def wrap64 (x : Int) : Int :=
  (x + 2 ^ 63) % 2 ^ 64 - 2 ^ 63

/-- Embeds `isDigit` from src/time/duration.go: `c >= '0' && c <= '9'`. -/
def isDigit (c : Char) : Bool :=
  48 ≤ c.toNat && c.toNat ≤ 57

/-- Negation of `isDigit`, the scan condition of the unit-consuming loop. -/
def notDigit (c : Char) : Bool :=
  ! isDigit c

/-- Embeds the `durationUnits` map from src/time/duration.go, each unit as
its length in nanoseconds (`time.Duration` is an int64 nanosecond count). -/
def durationUnits : List (List Char × Int) :=
  [(['s'], 1000000000),
   (['m', 'i', 'n'], 60000000000),
   (['m'], 60000000000),
   (['h'], 3600000000000),
   (['d'], 86400000000000),
   (['w'], 604800000000000),
   (['m', 'o', 'n'], 2592000000000000),
   (['y'], 31536000000000000),
   (['u', 's'], 1000),
   (['m', 's'], 1000000),
   (['n', 's'], 1)]

/-- Go map lookup on `durationUnits` (returns the unit's duration when the
key is present). -/
def lookupUnit (u : List Char) : Option Int :=
  (durationUnits.find? (fun p => p.1 = u)).map (fun p => p.2)

/-- The digit-consuming inner loop of `ParseExtendedDuration`:
`n *= 10; n += int(s[i]) - '0'` over a run of digit characters, in Go's
wrapping 64-bit `int` arithmetic. -/
def digitsVal (acc : Int) : List Char → Int
  | [] => acc
  | c :: cs => digitsVal (wrap64 (wrap64 (acc * 10) + ((c.toNat : Int) - 48))) cs

/-- One observable result of the Go function: the `time.Duration` return
value paired with the error return (`none` = nil error). Every error path
in the source returns duration 0 together with a non-nil error. -/
abbrev DurResult := Int × Option String

/-- The main scanning loop of `ParseExtendedDuration` (the `for i < len(s)`
loop), embedded structurally with the remaining input as a list of
characters; `fuel` bounds the number of iterations and is always supplied
as at least the input length, which suffices because every iteration
consumes at least one character. -/
def parseLoop : Nat → List Char → Int → DurResult
  | _, [], d => (d, none)
  | 0, _ :: _, _ => (0, some "out of fuel")
  | fuel + 1, c :: rest, d =>
    if isDigit c then
      let n := digitsVal 0 (c :: rest.takeWhile isDigit)
      let rest1 := rest.dropWhile isDigit
      match rest1 with
      | [] => (0, some "invalid duration, no unit")
      | _ :: _ =>
        let u := rest1.takeWhile notDigit
        let rest2 := rest1.dropWhile notDigit
        match lookupUnit u with
        | none => (0, some "invalid duration, invalid unit")
        | some unit => parseLoop fuel rest2 (wrap64 (d + wrap64 (n * unit)))
    else (0, some "invalid duration, no value specified")

/-- Embeds `ParseExtendedDuration` from src/time/duration.go over the
input's characters: empty input is rejected with `errDurationEmpty`,
otherwise the scanning loop runs from position 0 with accumulator 0. -/
def ParseExtendedDuration (s : List Char) : DurResult :=
  match s with
  | [] => (0, some "duration empty")
  | _ :: _ => parseLoop s.length s 0

/-- A candidate input segment: a run of digit characters paired with a unit
key, as described by the grammar the parser accepts. -/
abbrev Seg := List Char × List Char

/-- Well-formedness of a segment: non-empty digit run, and the unit text is
one of the keys of `durationUnits` (every key is a non-empty run of
non-digit characters). -/
def SegWF (seg : Seg) : Prop :=
  seg.1 ≠ [] ∧ (∀ c ∈ seg.1, isDigit c = true) ∧ (lookupUnit seg.2).isSome = true

instance (seg : Seg) : Decidable (SegWF seg) := by
  unfold SegWF; infer_instance

/-- Concatenation of a list of segments into an input string. -/
def segsStr : List Seg → List Char
  | [] => []
  | seg :: rest => seg.1 ++ seg.2 ++ segsStr rest

/-- The duration contributed by one segment, in Go's wrapping 64-bit
arithmetic: the digit run's value times the unit's duration. -/
def segVal (seg : Seg) : Int :=
  wrap64 (digitsVal 0 seg.1 * ((lookupUnit seg.2).getD 0))

/-- One accumulation step of the parser: `d += time.Duration(n) * unit` in
wrapping 64-bit arithmetic. -/
def addSeg (d : Int) (seg : Seg) : Int :=
  wrap64 (d + segVal seg)

/-- The total duration of a list of segments, accumulated left to right in
wrapping 64-bit arithmetic. -/
def segsSum (segs : List Seg) : Int :=
  segs.foldl addSeg 0

/-- A list is digit-headed when it is empty or starts with a digit. -/
def DigitHeaded (l : List Char) : Prop :=
  l = [] ∨ ∃ c t2, l = c :: t2 ∧ isDigit c = true

/-! ### Part 2: src/retry/retry.go -/

/-- An error returned by the attempted function, tagged with whether
xerrors.IsNonRetryableError reports it as non-retryable; the id field
keeps distinct errors distinguishable, so that returning the error of a
particular invocation is observable. -/
structure RetryErr where
  id : Nat
  nonRetryable : Bool
deriving DecidableEq

/-- The value returned by retrier.attempt: a nil error, the
ErrWhileConditionFalse sentinel, or the error of the last invocation. -/
inductive AttemptResult where
  | ok : AttemptResult
  | whileFalse : AttemptResult
  | failed (e : RetryErr) : AttemptResult
deriving DecidableEq

/-- The retrier configuration fields that influence which value attempt
returns: maxRetries (a Go int) bounds the for loop. The backoff fields,
jitter, the injected sleep function and the metrics counters feed only
sleep durations and telemetry, never the control flow or the returned
error, and are omitted; the forever flag is false here (the scope of the
claims), under which the for loop condition is i < maxRetries. -/
structure Retrier where
  maxRetries : Int

/-- The for loop of retrier.attempt, entered after the first invocation
returned a retryable error lastErr: each iteration sleeps (irrelevant
here), consults continueFn at the current attempt count k, invokes fn,
and exits on nil or a non-retryable error; rem iterations remain. The
second component counts the invocations of fn made inside the loop. -/
def retryLoop (fn : Nat → Option RetryErr) (continueFn : Option (Nat → Bool))
    (lastErr : RetryErr) (k : Nat) : Nat → AttemptResult × Nat
  | 0 => (.failed lastErr, 0)
  | rem + 1 =>
    if (match continueFn with | some cf => ! cf k | none => false) then
      (.whileFalse, 0)
    else
      match fn k with
      | none => (.ok, 1)
      | some e =>
        if e.nonRetryable then (.failed e, 1)
        else
          let res := retryLoop fn continueFn e (k + 1) rem
          (res.1, res.2 + 1)

/-- Embeds retrier.attempt from src/retry/retry.go: consult continueFn at
attempt 0, invoke fn once, return nil on success and the error itself
when non-retryable, and otherwise run the retry loop, which (with forever
false) performs at most max(maxRetries, 0) further invocations. fn is the
outcome of each successive invocation (none = nil error); the second
component counts the invocations of fn made. -/
def attempt (r : Retrier) (continueFn : Option (Nat → Bool))
    (fn : Nat → Option RetryErr) : AttemptResult × Nat :=
  if (match continueFn with | some cf => ! cf 0 | none => false) then
    (.whileFalse, 0)
  else
    match fn 0 with
    | none => (.ok, 1)
    | some e =>
      if e.nonRetryable then (.failed e, 1)
      else
        let res := retryLoop fn continueFn e 1 r.maxRetries.toNat
        (res.1, res.2 + 1)

/-! ### Part 3: src/time/range_iter.go -/

/-- Embeds the rangeIter struct from src/time/range_iter.go: ranges is the
possibly-nil container/list value and cur the current element, modelled
as an index into the list (none = nil element pointer). -/
structure RangeIter (α : Type) where
  ranges : Option (List α)
  cur : Option Nat
deriving DecidableEq

/-- Embeds newRangeIter: the cursor starts nil. -/
def newRangeIter {α : Type} (ranges : Option (List α)) : RangeIter α :=
  ⟨ranges, none⟩

/-- Embeds rangeIter.Next: with a nil list it reports false and leaves the
cursor alone; with a nil cursor it moves to the front element (nil when
the list is empty); otherwise to the successor element (nil past the
end); it reports whether the new cursor is non-nil. -/
def RangeIter.next {α : Type} (it : RangeIter α) : Bool × RangeIter α :=
  match it.ranges with
  | none => (false, it)
  | some l =>
    let newCur : Option Nat :=
      match it.cur with
      | none => if l.length = 0 then none else some 0
      | some i => if i + 1 < l.length then some (i + 1) else none
    (newCur.isSome, { it with cur := newCur })

/-- Embeds rangeIter.Value: dereferences the cursor (a Go panic on a nil
cursor is modelled as none). -/
def RangeIter.value {α : Type} (it : RangeIter α) : Option α :=
  match it.ranges, it.cur with
  | some l, some i => l.get? i
  | _, _ => none

/-- The state of the iterator after k successive Next calls. -/
def RangeIter.nextN {α : Type} (it : RangeIter α) : Nat → RangeIter α
  | 0 => it
  | k + 1 => (it.nextN k).next.2

/-! ### Part 4: the watch package (Watchable, Watch, Source)

The implementation (watch.go / source.go) is not present under the source
tree — only its test src/watch/source_test.go is — so the component is
modelled from the specification and every definition below says so. -/

/-- Modelled from the spec: the Watchable data model — value is the opaque
payload (none = the empty sentinel before any Update), version the
monotonically increasing counter, watches the identities of the
registered Watches, closed the one-way flag; nextId supplies fresh Watch
identities, and wake channels appear as emitted events. -/
structure WState (α : Type) where
  value : Option α
  version : Nat
  watches : List Nat
  nextId : Nat
  closed : Bool
deriving DecidableEq

/-- Modelled from the spec: the wake signals fanned out to registered
Watches — wake means the Watch's wake channel is closed-and-replaced by
an Update; closeSig means it is permanently closed by Watchable.Close. -/
inductive WEvent where
  | wake (id : Nat)
  | closeSig (id : Nat)
deriving DecidableEq

/-- Modelled from the spec: ClosedError, the error Update and Watch return
on an already-closed Watchable. -/
inductive WErr where
  | closedError
deriving DecidableEq

/-- Modelled from the spec: NewWatchable with no initial value — version 0
and the empty sentinel. -/
def newWatchable (α : Type) : WState α :=
  ⟨none, 0, [], 0, false⟩

/-- Modelled from the spec: Update(newValue) — under the lock, fails with
ClosedError when the Watchable is closed; otherwise sets the value,
increments the version, and wakes every currently-registered Watch. -/
def update {α : Type} (s : WState α) (v : α) : Except WErr (WState α × List WEvent) :=
  if s.closed then .error .closedError
  else .ok ({ s with value := some v, version := s.version + 1 },
    s.watches.map WEvent.wake)

/-- Modelled from the spec: Watch() — fails with ClosedError when the
Watchable is closed; otherwise, under one lock acquisition, snapshots the
current value and registers a new wake channel, returning the snapshot
and the identity of the registered Watch handle. -/
def watchOp {α : Type} (s : WState α) : Except WErr (WState α × Option α × Nat) :=
  if s.closed then .error .closedError
  else .ok ({ s with watches := s.watches ++ [s.nextId], nextId := s.nextId + 1 },
    s.value, s.nextId)

/-- Modelled from the spec: Get() — returns the current value (the empty
sentinel as none); never fails and never changes state. -/
def getW {α : Type} (s : WState α) : Option α :=
  s.value

/-- Modelled from the spec: Watchable.Close() — idempotent; the first call
sets closed and wakes, permanently closing the wake signal of, every
registered Watch; a second call is a no-op. -/
def closeW {α : Type} (s : WState α) : WState α × List WEvent :=
  if s.closed then (s, [])
  else ({ s with closed := true }, s.watches.map WEvent.closeSig)

/-- Modelled from the spec: the operations callers invoke on a Watchable. -/
inductive WOp (α : Type) where
  | updateOp (v : α)
  | watchRegister
  | getOp
  | closeOp

/-- Modelled from the spec: one operation linearized under the Watchable's
single lock; a failing operation leaves the state unchanged; the second
component is the wake events the operation fans out. -/
def wstep {α : Type} (s : WState α) : WOp α → WState α × List WEvent
  | .updateOp v =>
    match update s v with
    | .ok (s2, evs) => (s2, evs)
    | .error _ => (s, [])
  | .watchRegister =>
    match watchOp s with
    | .ok (s2, _, _) => (s2, [])
    | .error _ => (s, [])
  | .getOp => (s, [])
  | .closeOp => closeW s

/-- Modelled from the spec: a sequence of linearized operations on the
Watchable, with all fanned-out wake events collected in order. -/
def runOps {α : Type} (s : WState α) : List (WOp α) → WState α × List WEvent
  | [] => (s, [])
  | op :: rest =>
    let p := wstep s op
    let q := runOps p.1 rest
    (q.1, p.2 ++ q.2)

/-- Successive Update calls on a Watchable, stopping at the first failure
(none = some update in the sequence failed). -/
def applyUpdates {α : Type} (s : WState α) : List α → Option (WState α)
  | [] => some s
  | v :: rest =>
    match update s v with
    | .ok (s2, _) => applyUpdates s2 rest
    | .error _ => none

/-- Modelled from the spec: the Source state — it owns one Watchable, has a
one-way closed flag, and reports transient poll errors to the logger
collaborator (modelled as the list of messages logged so far). -/
structure SState (α : Type) where
  w : WState α
  closed : Bool
  logged : List String
deriving DecidableEq

/-- Modelled from the spec: NewSource — an open Watchable, nothing logged;
the background poll task is the runPoll loop below. -/
def newSource (α : Type) : SState α :=
  ⟨newWatchable α, false, []⟩

/-- Modelled from the spec: one Pollable.Poll() outcome — a value with nil
error, the designated terminal source-closed signal, or any other
(transient) error. -/
inductive PollRes (α : Type) where
  | val (v : α)
  | terminal
  | transient (e : String)
deriving DecidableEq

/-- Modelled from the spec: Source.Close() — idempotent; on the first call
it stops future polling (the loop checks the closed flag), closes the
owned Watchable, and sets closed; the third component is the returned
error, always none. -/
def srcClose {α : Type} (s : SState α) : SState α × List WEvent × Option WErr :=
  if s.closed then (s, [], none)
  else
    let p := closeW s.w
    (⟨p.1, true, s.logged⟩, p.2, none)

/-- Modelled from the spec: the Source poll loop driven by the successive
results of Pollable.Poll(): a value is applied via Watchable.Update and
the loop continues; the terminal signal transitions the Source to closed
and stops scheduling polls; a transient error is logged and the loop
continues; a Source that is already closed schedules no poll at all.
Returns the final state, the wake events fanned out, and the number of
Poll() calls made. -/
def runPoll {α : Type} (s : SState α) : List (PollRes α) → SState α × List WEvent × Nat
  | [] => (s, [], 0)
  | r :: rest =>
    if s.closed then (s, [], 0)
    else
      match r with
      | .val v =>
        match update s.w v with
        | .ok (w2, evs) =>
          let q := runPoll ⟨w2, s.closed, s.logged⟩ rest
          (q.1, evs ++ q.2.1, q.2.2 + 1)
        | .error _ =>
          let q := runPoll s rest
          (q.1, q.2.1, q.2.2 + 1)
      | .terminal =>
        let p := srcClose s
        (p.1, p.2.1, 1)
      | .transient e =>
        let q := runPoll ⟨s.w, s.closed, s.logged ++ [e]⟩ rest
        (q.1, q.2.1, q.2.2 + 1)

/-- Modelled from the spec: Source.Watch() delegates to the owned
Watchable. -/
def srcWatch {α : Type} (s : SState α) : Except WErr (WState α × Option α × Nat) :=
  watchOp s.w

/-- Modelled from the spec: Source.Get() delegates to the owned Watchable. -/
def srcGet {α : Type} (s : SState α) : Option α :=
  getW s.w

/-- Repeated Source.Close() calls: the state after n calls. -/
def srcClosePow {α : Type} (s : SState α) : Nat → SState α
  | 0 => s
  | n + 1 => (srcClose (srcClosePow s n)).1

/-! ### Theorems: Part 1 (C8) -/

/-- Dropping a prefix satisfying a predicate never lengthens a list. -/
theorem length_dropWhile_le (p : Char → Bool) (l : List Char) :
    (l.dropWhile p).length ≤ l.length := by
  induction l with
  | nil => simp
  | cons a l ih =>
    by_cases h : p a = true
    · rw [List.dropWhile_cons_of_pos h]; exact Nat.le_succ_of_le ih
    · rw [List.dropWhile_cons_of_neg h]

/-- A scan over an append whose left part satisfies the predicate throughout
keeps the whole left part. -/
theorem takeWhile_append_all {p : Char → Bool} :
    ∀ {l1 l2 : List Char}, (∀ a ∈ l1, p a = true) →
      (l1 ++ l2).takeWhile p = l1 ++ l2.takeWhile p := by
  intro l1
  induction l1 with
  | nil => intro l2 _; simp
  | cons a l ih =>
    intro l2 h
    rw [List.cons_append, List.takeWhile_cons_of_pos (h a (by simp)), List.cons_append,
      ih (fun b hb => h b (by simp [hb]))]

/-- Dropping over an append whose left part satisfies the predicate
throughout discards the whole left part. -/
theorem dropWhile_append_all {p : Char → Bool} :
    ∀ {l1 l2 : List Char}, (∀ a ∈ l1, p a = true) →
      (l1 ++ l2).dropWhile p = l2.dropWhile p := by
  intro l1
  induction l1 with
  | nil => intro l2 _; simp
  | cons a l ih =>
    intro l2 h
    rw [List.cons_append, List.dropWhile_cons_of_pos (h a (by simp)),
      ih (fun b hb => h b (by simp [hb]))]

/-- Scanning for non-digits stops immediately on a digit-headed list. -/
theorem takeWhile_notDigit_of_digitHeaded {l : List Char} (h : DigitHeaded l) :
    l.takeWhile notDigit = [] ∧ l.dropWhile notDigit = l := by
  rcases h with h | ⟨c, t2, rfl, hc⟩
  · subst h; simp
  · have : notDigit c ≠ true := by simp [notDigit, hc]
    rw [List.takeWhile_cons_of_neg this, List.dropWhile_cons_of_neg this]
    exact ⟨rfl, rfl⟩

/-- Every key of the unit table is a non-empty run of non-digit characters. -/
theorem lookupUnit_key_props {u : List Char} {x : Int} (h : lookupUnit u = some x) :
    u ≠ [] ∧ ∀ c ∈ u, notDigit c = true := by
  unfold lookupUnit at h
  cases hf : durationUnits.find? (fun p => p.1 = u) with
  | none => rw [hf] at h; simp at h
  | some p =>
    have hp : p.1 = u := by simpa using List.find?_some hf
    have hmem := List.mem_of_find?_eq_some hf
    have hall : ∀ q ∈ durationUnits, q.1 ≠ [] ∧ ∀ c ∈ q.1, notDigit c = true := by decide
    exact hp ▸ hall p hmem

/-- The scanning loop ignores fuel beyond the input length. -/
theorem parseLoop_fuel_eq :
    ∀ (f1 f2 : Nat) (cs : List Char) (d : Int), cs.length ≤ f1 → cs.length ≤ f2 →
      parseLoop f1 cs d = parseLoop f2 cs d := by
  intro f1
  induction f1 with
  | zero =>
    intro f2 cs d h1 _
    have : cs = [] := List.eq_nil_of_length_eq_zero (Nat.le_zero.mp h1)
    subst this
    cases f2 <;> rfl
  | succ f ih =>
    intro f2 cs d h1 h2
    cases cs with
    | nil => cases f2 <;> rfl
    | cons c rest =>
      cases f2 with
      | zero => simp at h2
      | succ g =>
        simp only [parseLoop]
        by_cases hc : isDigit c
        · rw [if_pos hc, if_pos hc]
          cases hrest1 : rest.dropWhile isDigit with
          | nil => rfl
          | cons a as =>
            cases hu : lookupUnit ((a :: as).takeWhile notDigit) with
            | none => simp [hu]
            | some x =>
              simp only [hu]
              have hr1 : (a :: as).length ≤ rest.length := by
                rw [← hrest1]; exact length_dropWhile_le _ _
              have hr2 : ((a :: as).dropWhile notDigit).length ≤ rest.length :=
                le_trans (length_dropWhile_le _ _) hr1
              have h1' : rest.length + 1 ≤ f + 1 := by simpa using h1
              have h2' : rest.length + 1 ≤ g + 1 := by simpa using h2
              exact ih g _ _ (by omega) (by omega)
        · rw [if_neg hc, if_neg hc]

/-- Processing a well-formed segment list followed by a digit-headed tail:
the loop consumes each segment, accumulating its wrapped contribution. -/
theorem parseLoop_segs :
    ∀ (segs : List Seg) (t : List Char) (d : Int) (fuel : Nat),
      (∀ seg ∈ segs, SegWF seg) → DigitHeaded t →
      (segsStr segs ++ t).length ≤ fuel →
      parseLoop fuel (segsStr segs ++ t) d = parseLoop t.length t (segs.foldl addSeg d) := by
  intro segs
  induction segs with
  | nil =>
    intro t d fuel _ _ hfuel
    simp only [segsStr, List.nil_append, List.foldl_nil]
    exact parseLoop_fuel_eq fuel t.length t d (by simpa [segsStr] using hfuel) le_rfl
  | cons seg rest ih =>
    obtain ⟨ds, us⟩ := seg
    intro t d fuel hwf ht hfuel
    obtain ⟨hds, hdig, hunit⟩ := hwf (ds, us) (List.mem_cons_self _ _)
    simp only at hds hdig hunit
    obtain ⟨x, hx⟩ : ∃ x, lookupUnit us = some x := Option.isSome_iff_exists.mp hunit
    obtain ⟨huNe, huNd⟩ := lookupUnit_key_props hx
    obtain ⟨c, ds2, rfl⟩ : ∃ c ds2, ds = c :: ds2 := by
      cases h : ds with
      | nil => exact absurd h hds
      | cons a b => exact ⟨a, b, rfl⟩
    obtain ⟨u0, us2, rfl⟩ : ∃ u0 us2, us = u0 :: us2 := by
      cases h : us with
      | nil => exact absurd h huNe
      | cons a b => exact ⟨a, b, rfl⟩
    have hR : DigitHeaded (segsStr rest ++ t) := by
      cases rest with
      | nil => simpa [segsStr] using ht
      | cons seg2 rest2 =>
        obtain ⟨hds2, hdig2, _⟩ := hwf seg2 (by simp)
        obtain ⟨c2, ds3, hseg21⟩ : ∃ c2 ds3, seg2.1 = c2 :: ds3 := by
          cases h : seg2.1 with
          | nil => exact absurd h hds2
          | cons a b => exact ⟨a, b, rfl⟩
        refine Or.inr ⟨c2, ds3 ++ seg2.2 ++ segsStr rest2 ++ t, ?_, ?_⟩
        · simp [segsStr, hseg21, List.append_assoc]
        · exact hdig2 c2 (by simp [hseg21])
    have hstr : segsStr ((c :: ds2, u0 :: us2) :: rest) ++ t
        = c :: (ds2 ++ (u0 :: (us2 ++ (segsStr rest ++ t)))) := by
      simp [segsStr, List.append_assoc]
    cases fuel with
    | zero => rw [hstr] at hfuel; simp at hfuel
    | succ f =>
      rw [hstr]
      have hc : isDigit c = true := hdig c (by simp)
      have hdig2 : ∀ a ∈ ds2, isDigit a = true := fun a ha => hdig a (by simp [ha])
      have hu0nd : notDigit u0 = true := huNd u0 (by simp)
      have hu0 : ¬ isDigit u0 = true := by
        simp only [notDigit, Bool.not_eq_true'] at hu0nd
        simp [hu0nd]
      have hTW : (ds2 ++ (u0 :: (us2 ++ (segsStr rest ++ t)))).takeWhile isDigit = ds2 := by
        rw [takeWhile_append_all hdig2, List.takeWhile_cons_of_neg hu0, List.append_nil]
      have hDW : (ds2 ++ (u0 :: (us2 ++ (segsStr rest ++ t)))).dropWhile isDigit
          = u0 :: (us2 ++ (segsStr rest ++ t)) := by
        rw [dropWhile_append_all hdig2, List.dropWhile_cons_of_neg hu0]
      obtain ⟨hRtw, hRdw⟩ := takeWhile_notDigit_of_digitHeaded hR
      have hTW2 : ((u0 :: us2) ++ (segsStr rest ++ t)).takeWhile notDigit = u0 :: us2 := by
        rw [takeWhile_append_all huNd, hRtw, List.append_nil]
      have hDW2 : ((u0 :: us2) ++ (segsStr rest ++ t)).dropWhile notDigit
          = segsStr rest ++ t := by
        rw [dropWhile_append_all huNd, hRdw]
      simp only [List.cons_append] at hTW2 hDW2
      simp only [parseLoop, if_pos hc, hTW, hDW, hTW2, hDW2, hx]
      have hlen : (segsStr rest ++ t).length ≤ f := by
        rw [hstr] at hfuel
        simp only [List.length_cons, List.length_append] at hfuel ⊢
        omega
      have hacc : wrap64 (d + wrap64 (digitsVal 0 (c :: ds2) * x))
          = addSeg d (c :: ds2, u0 :: us2) := by
        simp [addSeg, segVal, hx]
      rw [hacc, ih t _ f (fun s hs => hwf s (by simp [hs])) ht hlen]
      simp [List.foldl_cons]

/-- Completeness: a successful run of the scanning loop decomposes the
input into well-formed segments whose wrapped contributions it summed. -/
theorem parseLoop_ok_decomp :
    ∀ (fuel : Nat) (cs : List Char) (d v : Int),
      cs.length ≤ fuel → parseLoop fuel cs d = (v, none) →
      ∃ segs : List Seg, (∀ seg ∈ segs, SegWF seg) ∧ cs = segsStr segs ∧
        v = segs.foldl addSeg d := by
  intro fuel
  induction fuel with
  | zero =>
    intro cs d v h1 h2
    have : cs = [] := List.eq_nil_of_length_eq_zero (Nat.le_zero.mp h1)
    subst this
    simp only [parseLoop, Prod.mk.injEq] at h2
    exact ⟨[], by simp, by simp [segsStr], by simp [h2.1]⟩
  | succ f ih =>
    intro cs d v h1 h2
    cases cs with
    | nil =>
      simp only [parseLoop, Prod.mk.injEq] at h2
      exact ⟨[], by simp, by simp [segsStr], by simp [h2.1]⟩
    | cons c rest =>
      simp only [parseLoop] at h2
      by_cases hc : isDigit c = true
      case neg => rw [if_neg hc] at h2; simp at h2
      rw [if_pos hc] at h2
      cases hrest1 : rest.dropWhile isDigit with
      | nil => rw [hrest1] at h2; simp at h2
      | cons a as =>
        rw [hrest1] at h2
        cases hu : lookupUnit ((a :: as).takeWhile notDigit) with
        | none => simp only [hu] at h2; simp at h2
        | some x =>
          simp only [hu] at h2
          have hlen : ((a :: as).dropWhile notDigit).length ≤ f := by
            have q1 : (a :: as).length ≤ rest.length := by
              rw [← hrest1]; exact length_dropWhile_le _ _
            have q2 := length_dropWhile_le notDigit (a :: as)
            have q3 : rest.length + 1 ≤ f + 1 := by simpa using h1
            omega
          obtain ⟨segs, hwf, hcs, hv⟩ := ih _ _ _ hlen h2
          refine ⟨(c :: rest.takeWhile isDigit, (a :: as).takeWhile notDigit) :: segs,
            ?_, ?_, ?_⟩
          · intro seg hseg
            rcases List.mem_cons.mp hseg with rfl | hseg2
            · refine ⟨by simp, ?_, by simp [hu]⟩
              intro b hb
              rcases List.mem_cons.mp hb with rfl | hb2
              · exact hc
              · exact List.mem_takeWhile_imp hb2
            · exact hwf seg hseg2
          · simp only [segsStr, ← hcs]
            simp only [List.cons_append, List.append_assoc]
            rw [List.takeWhile_append_dropWhile, ← hrest1, List.takeWhile_append_dropWhile]
          · rw [hv]
            simp [List.foldl_cons, addSeg, segVal, hu]

/-- Every error exit of the scanning loop carries duration 0. -/
theorem parseLoop_err_zero :
    ∀ (fuel : Nat) (cs : List Char) (d : Int),
      ((parseLoop fuel cs d).2).isSome = true → (parseLoop fuel cs d).1 = 0 := by
  intro fuel
  induction fuel with
  | zero =>
    intro cs d h
    cases cs with
    | nil => simp [parseLoop] at h
    | cons c rest => rfl
  | succ f ih =>
    intro cs d h
    cases cs with
    | nil => simp [parseLoop] at h
    | cons c rest =>
      simp only [parseLoop] at h ⊢
      by_cases hc : isDigit c = true
      · rw [if_pos hc] at h ⊢
        cases hrest1 : rest.dropWhile isDigit with
        | nil => simp
        | cons a as =>
          rw [hrest1] at h
          cases hu : lookupUnit ((a :: as).takeWhile notDigit) with
          | none => simp [hu]
          | some x =>
            simp only [hu] at h ⊢
            exact ih _ _ h
      · rw [if_neg hc]

/-- The scanning loop accepts an empty remainder immediately. -/
theorem parseLoop_nil (fuel : Nat) (d : Int) : parseLoop fuel [] d = (d, none) := by
  cases fuel <;> rfl

/-- C8 (amended): a string that is a concatenation of one or more
well-formed segments (non-empty digit run followed by a unit key) parses
with a nil error to the sum over segments of the digit value times the
unit's duration, the products and the running sum computed in Go's
wrapping 64-bit signed arithmetic (equal to the mathematical sum exactly
when no intermediate product or sum overflows int64); every other string
 — empty, starting with a non-digit, ending in a digit run with no unit,
or containing an unknown unit — yields duration 0 and a non-nil error. -/
theorem parse_extended_duration_correct :
    (∀ segs : List Seg, segs ≠ [] → (∀ seg ∈ segs, SegWF seg) →
      ParseExtendedDuration (segsStr segs) = (segsSum segs, none)) ∧
    (∀ (s : List Char) (v : Int), ParseExtendedDuration s = (v, none) →
      ∃ segs : List Seg, segs ≠ [] ∧ (∀ seg ∈ segs, SegWF seg) ∧
        s = segsStr segs ∧ v = segsSum segs) ∧
    (∀ s : List Char, ((ParseExtendedDuration s).2).isSome = true →
      (ParseExtendedDuration s).1 = 0) := by
  refine ⟨?_, ?_, ?_⟩
  · intro segs hne hwf
    obtain ⟨seg, rest, rfl⟩ : ∃ seg rest, segs = seg :: rest := by
      cases segs with
      | nil => exact absurd rfl hne
      | cons a b => exact ⟨a, b, rfl⟩
    obtain ⟨hds, hdig, _⟩ := hwf seg (by simp)
    obtain ⟨c, ds2, hseg1⟩ : ∃ c ds2, seg.1 = c :: ds2 := by
      cases h : seg.1 with
      | nil => exact absurd h hds
      | cons a b => exact ⟨a, b, rfl⟩
    have hne2 : segsStr (seg :: rest) = c :: (ds2 ++ (seg.2 ++ segsStr rest)) := by
      simp [segsStr, hseg1, List.append_assoc]
    calc ParseExtendedDuration (segsStr (seg :: rest))
        = parseLoop (segsStr (seg :: rest)).length (segsStr (seg :: rest) ++ []) 0 := by
          rw [List.append_nil, hne2]
          rfl
      _ = parseLoop (List.length ([] : List Char)) [] ((seg :: rest).foldl addSeg 0) :=
          parseLoop_segs (seg :: rest) [] 0 _ hwf (Or.inl rfl) (by simp)
      _ = (segsSum (seg :: rest), none) := by
          rw [parseLoop_nil]; rfl
  · intro s v h
    cases s with
    | nil => simp [ParseExtendedDuration] at h
    | cons c rest =>
      have h2 : parseLoop (c :: rest).length (c :: rest) 0 = (v, none) := h
      obtain ⟨segs, hwf, hcs, hv⟩ := parseLoop_ok_decomp _ _ _ _ le_rfl h2
      refine ⟨segs, ?_, hwf, hcs, by simpa [segsSum] using hv⟩
      rintro rfl
      simp [segsStr] at hcs
  · intro s h
    cases s with
    | nil => rfl
    | cons c rest => exact parseLoop_err_zero _ _ _ h

set_option maxRecDepth 8000 in
/-- C8 witness: the concatenation 12h30min parses to its wrapped segment
sum, which is 45000000000000 ns (12.5 hours). -/
theorem parse_extended_duration_correct_witness :
    ParseExtendedDuration (segsStr [([ '1', '2'], [ 'h']), ([ '3', '0'], [ 'm', 'i', 'n'])])
      = (segsSum [([ '1', '2'], [ 'h']), ([ '3', '0'], [ 'm', 'i', 'n'])], none) ∧
    segsSum [([ '1', '2'], [ 'h']), ([ '3', '0'], [ 'm', 'i', 'n'])] = 45000000000000 :=
  ⟨parse_extended_duration_correct.1 _ (by decide) (by decide), by decide⟩

set_option maxRecDepth 8000 in
/-- C8 counterexample: for the well-formed single-segment input 293y the
code returns the int64-wrapped product -9206696073709551616 with a nil
error, not the mathematical product 293 * 31536000000000000 ns that the
claim demands. -/
theorem parse_extended_duration_overflow :
    ParseExtendedDuration [ '2', '9', '3', 'y'] = (-9206696073709551616, none) ∧
    (-9206696073709551616 : Int) ≠ 293 * 31536000000000000 := by
  constructor
  · decide
  · decide

/-! ### Theorems: Part 2 (C9) -/

/-- When every invocation inside the retry loop keeps failing retryably,
the loop runs all its iterations and returns the error of the last one. -/
theorem retryLoop_all_retryable (fn : Nat → Option RetryErr) (e : Nat → RetryErr) :
    ∀ (rem k : Nat) (elast : RetryErr),
      (∀ j, k ≤ j → j < k + rem → fn j = some (e j) ∧ (e j).nonRetryable = false) →
      retryLoop fn none elast k rem
        = (.failed (if rem = 0 then elast else e (k + rem - 1)), rem) := by
  intro rem
  induction rem with
  | zero => intro k elast _; simp [retryLoop]
  | succ m ih =>
    intro k elast h
    obtain ⟨hfk, hret⟩ := h k le_rfl (by omega)
    simp only [retryLoop, hfk, hret]
    rw [ih (k + 1) (e k) (fun j hj1 hj2 => h j (by omega) (by omega))]
    have he : (if m = 0 then e k else e (k + 1 + m - 1)) = e (k + (m + 1) - 1) := by
      cases m with
      | zero => simp
      | succ m2 => simp only [if_neg (Nat.succ_ne_zero m2)]; congr 1; omega
    simp [he]
    intro hm0
    subst hm0
    simp

/-- When some invocation inside the retry loop succeeds, the loop stops
right after it, returning nil. -/
theorem retryLoop_success (fn : Nat → Option RetryErr) (e : Nat → RetryErr) :
    ∀ (m rem k : Nat) (elast : RetryErr), m < rem →
      (∀ j, k ≤ j → j < k + m → fn j = some (e j) ∧ (e j).nonRetryable = false) →
      fn (k + m) = none →
      retryLoop fn none elast k rem = (.ok, m + 1) := by
  intro m
  induction m with
  | zero =>
    intro rem k elast hm h h0
    cases rem with
    | zero => omega
    | succ rm =>
      simp only [retryLoop]
      simp [show fn k = none from by simpa using h0]
  | succ m2 ih =>
    intro rem k elast hm h h0
    cases rem with
    | zero => omega
    | succ rm =>
      obtain ⟨hfk, hret⟩ := h k le_rfl (by omega)
      simp only [retryLoop, hfk, hret]
      rw [ih rm (k + 1) (e k) (by omega) (fun j hj1 hj2 => h j (by omega) (by omega))
        (by rw [← h0]; congr 1; omega)]
      simp

/-- When some invocation inside the retry loop fails non-retryably, the
loop stops right after it, returning that error. -/
theorem retryLoop_nonretryable (fn : Nat → Option RetryErr) (e : Nat → RetryErr)
    (ebad : RetryErr) :
    ∀ (m rem k : Nat) (elast : RetryErr), m < rem →
      (∀ j, k ≤ j → j < k + m → fn j = some (e j) ∧ (e j).nonRetryable = false) →
      fn (k + m) = some ebad → ebad.nonRetryable = true →
      retryLoop fn none elast k rem = (.failed ebad, m + 1) := by
  intro m
  induction m with
  | zero =>
    intro rem k elast hm h h0 hbad
    cases rem with
    | zero => omega
    | succ rm =>
      simp only [retryLoop]
      simp [show fn k = some ebad from by simpa using h0, hbad]
  | succ m2 ih =>
    intro rem k elast hm h h0 hbad
    cases rem with
    | zero => omega
    | succ rm =>
      obtain ⟨hfk, hret⟩ := h k le_rfl (by omega)
      simp only [retryLoop, hfk, hret]
      rw [ih rm (k + 1) (e k) (by omega) (fun j hj1 hj2 => h j (by omega) (by omega))
        (by rw [← h0]; congr 1; omega) hbad]
      simp

/-- C9: with forever false and continueFn nil (the none argument): when all
of the first maxRetries+1 invocations fail retryably, attempt makes
exactly maxRetries+1 invocations and returns the last error; when the
k-th invocation (zero-based, within the budget) returns nil after only
retryable errors, attempt stops right there with nil after k+1
invocations; when it fails non-retryably, attempt stops right there with
that error after k+1 invocations. -/
theorem retrier_attempt_spec :
    (∀ (r : Retrier) (fn : Nat → Option RetryErr) (e : Nat → RetryErr),
      0 ≤ r.maxRetries →
      (∀ k, k ≤ r.maxRetries.toNat → fn k = some (e k) ∧ (e k).nonRetryable = false) →
      attempt r none fn = (.failed (e r.maxRetries.toNat), r.maxRetries.toNat + 1)) ∧
    (∀ (r : Retrier) (fn : Nat → Option RetryErr) (e : Nat → RetryErr) (k : Nat),
      k ≤ r.maxRetries.toNat →
      (∀ j, j < k → fn j = some (e j) ∧ (e j).nonRetryable = false) →
      fn k = none →
      attempt r none fn = (.ok, k + 1)) ∧
    (∀ (r : Retrier) (fn : Nat → Option RetryErr) (e : Nat → RetryErr) (k : Nat)
      (ebad : RetryErr),
      k ≤ r.maxRetries.toNat →
      (∀ j, j < k → fn j = some (e j) ∧ (e j).nonRetryable = false) →
      fn k = some ebad → ebad.nonRetryable = true →
      attempt r none fn = (.failed ebad, k + 1)) := by
  refine ⟨?_, ?_, ?_⟩
  · intro r fn e _ hall
    obtain ⟨hf0, hr0⟩ := hall 0 (Nat.zero_le _)
    simp only [attempt, hf0, hr0]
    rw [retryLoop_all_retryable fn e r.maxRetries.toNat 1 (e 0)
      (fun j hj1 hj2 => hall j (by omega))]
    cases hN : r.maxRetries.toNat with
    | zero => simp [hN]
    | succ n =>
      simp only [if_neg (Nat.succ_ne_zero n)]
      have : 1 + Nat.succ n - 1 = Nat.succ n := by omega
      simp [this]
  · intro r fn e k hk hbefore h0
    cases k with
    | zero => simp [attempt, h0]
    | succ m =>
      obtain ⟨hf0, hr0⟩ := hbefore 0 (Nat.succ_pos m)
      simp only [attempt, hf0, hr0]
      rw [retryLoop_success fn e m r.maxRetries.toNat 1 (e 0) (by omega)
        (fun j hj1 hj2 => hbefore j (by omega))
        (by rw [← h0]; congr 1; omega)]
      simp
  · intro r fn e k ebad hk hbefore h0 hbad
    cases k with
    | zero => simp [attempt, h0, hbad]
    | succ m =>
      obtain ⟨hf0, hr0⟩ := hbefore 0 (Nat.succ_pos m)
      simp only [attempt, hf0, hr0]
      rw [retryLoop_nonretryable fn e ebad m r.maxRetries.toNat 1 (e 0) (by omega)
        (fun j hj1 hj2 => hbefore j (by omega))
        (by rw [← h0]; congr 1; omega) hbad]
      simp

/-- C9 witness: with maxRetries 2, a function that always fails retryably
is invoked 3 times and its last error is returned; one that succeeds on
its second invocation stops at 2 with nil; one that fails non-retryably
on its second invocation stops at 2 with that error. -/
theorem retrier_attempt_spec_witness :
    attempt ⟨2⟩ none (fun _ => some ⟨5, false⟩) = (.failed ⟨5, false⟩, 3) ∧
    attempt ⟨2⟩ none (fun j => if j < 1 then some ⟨5, false⟩ else none) = (.ok, 2) ∧
    attempt ⟨2⟩ none (fun j => if j < 1 then some ⟨5, false⟩ else some ⟨9, true⟩)
      = (.failed ⟨9, true⟩, 2) := by
  refine ⟨?_, ?_, ?_⟩
  · exact retrier_attempt_spec.1 ⟨2⟩ _ (fun _ => ⟨5, false⟩) (by decide)
      (fun k _ => ⟨rfl, rfl⟩)
  · exact retrier_attempt_spec.2.1 ⟨2⟩ _ (fun _ => ⟨5, false⟩) 1 (by decide)
      (fun j hj => by
        have : j = 0 := by omega
        subst this; exact ⟨rfl, rfl⟩) rfl
  · exact retrier_attempt_spec.2.2 ⟨2⟩ _ (fun _ => ⟨5, false⟩) 1 ⟨9, true⟩ (by decide)
      (fun j hj => by
        have : j = 0 := by omega
        subst this; exact ⟨rfl, rfl⟩) rfl rfl

/-! ### Theorems: Part 3 (C10) -/

/-- The cursor of a non-nil iterator after k Next calls, k within the list
length: nil before the first call, then pointing at element k-1. -/
theorem rangeIter_state {α : Type} (l : List α) :
    ∀ k, k ≤ l.length →
      (newRangeIter (some l)).nextN k
        = ⟨some l, if k = 0 then none else some (k - 1)⟩ := by
  intro k
  induction k with
  | zero => intro _; rfl
  | succ m ih =>
    intro hk
    show ((newRangeIter (some l)).nextN m).next.2 = _
    rw [ih (by omega)]
    cases m with
    | zero =>
      have h0 : ¬ l.length = 0 := by omega
      simp [RangeIter.next, h0]
    | succ m2 =>
      have h1 : m2 + 1 < l.length := by omega
      simp [RangeIter.next, h1]

/-- After length+1 Next calls the cursor is nil again (exhaustion). -/
theorem rangeIter_exhaust {α : Type} (l : List α) :
    (newRangeIter (some l)).nextN (l.length + 1) = ⟨some l, none⟩ := by
  show ((newRangeIter (some l)).nextN l.length).next.2 = _
  rw [rangeIter_state l l.length le_rfl]
  cases hn : l.length with
  | zero => simp [RangeIter.next, hn]
  | succ m =>
    have h1 : ¬ (m + 1 < l.length) := by omega
    simp [RangeIter.next, h1]

/-- An iterator over a nil list never moves and always reports false. -/
theorem rangeIter_nil_state {α : Type} (cur : Option Nat) (k : Nat) :
    ((RangeIter.mk (α := α) none cur).nextN k) = ⟨none, cur⟩ := by
  induction k with
  | zero => rfl
  | succ m ih =>
    show ((RangeIter.mk (α := α) none cur).nextN m).next.2 = _
    rw [ih]
    rfl

/-- C10: on a non-nil list of n elements, each of the first n Next calls
returns true and Value then yields the corresponding element from the
front; the n+1-th call returns false; a further call restarts from the
front, returning true (and the front element) whenever n > 0; Next on an
iterator whose list is nil always returns false. -/
theorem range_iter_next_value :
    (∀ (α : Type) (l : List α) (k : Nat), k < l.length →
      ((newRangeIter (some l)).nextN k).next.1 = true ∧
      ((newRangeIter (some l)).nextN (k + 1)).value = l.get? k) ∧
    (∀ (α : Type) (l : List α),
      ((newRangeIter (some l)).nextN l.length).next.1 = false) ∧
    (∀ (α : Type) (l : List α), 0 < l.length →
      ((newRangeIter (some l)).nextN (l.length + 1)).next.1 = true ∧
      ((newRangeIter (some l)).nextN (l.length + 2)).value = l.get? 0) ∧
    (∀ (α : Type) (cur : Option Nat) (k : Nat),
      ((RangeIter.mk (α := α) none cur).nextN k).next.1 = false) := by
  refine ⟨?_, ?_, ?_, ?_⟩
  · intro α l k hk
    have h1 : (newRangeIter (some l)).nextN (k + 1) = ⟨some l, some k⟩ := by
      rw [rangeIter_state l (k + 1) (by omega)]
      simp
    constructor
    · have h2 : ((newRangeIter (some l)).nextN k).next.2 = ⟨some l, some k⟩ := h1
      rw [rangeIter_state l k (by omega)]
      cases k with
      | zero =>
        have h0 : ¬ l.length = 0 := by omega
        simp [RangeIter.next, h0]
      | succ m =>
        have hm : m + 1 < l.length := by omega
        simp [RangeIter.next, hm]
    · rw [h1]
      rfl
  · intro α l
    rw [rangeIter_state l l.length le_rfl]
    cases hn : l.length with
    | zero => simp [RangeIter.next, hn]
    | succ m =>
      have h1 : ¬ (m + 1 < l.length) := by omega
      simp [RangeIter.next, h1]
  · intro α l hl
    constructor
    · show ((newRangeIter (some l)).nextN (l.length + 1)).next.1 = true
      rw [rangeIter_exhaust l]
      have h0 : ¬ l.length = 0 := by omega
      simp [RangeIter.next, h0]
    · show ((newRangeIter (some l)).nextN (l.length + 1)).next.2.value = l.get? 0
      rw [rangeIter_exhaust l]
      have h0 : ¬ l.length = 0 := by omega
      simp [RangeIter.next, RangeIter.value, h0]
  · intro α cur k
    rw [rangeIter_nil_state cur k]
    rfl

/-- C10 witness: over the two-element list [10, 20] the second call
returns true with value 20, the third returns false, the fourth restarts
with true and value 10; the nil iterator reports false on its sixth
call. -/
theorem range_iter_next_value_witness :
    ((newRangeIter (some [10, 20])).nextN 1).next.1 = true ∧
    ((newRangeIter (some [10, 20])).nextN 2).value = some 20 ∧
    ((newRangeIter (some [10, 20])).nextN 2).next.1 = false ∧
    ((newRangeIter (some [10, 20])).nextN 3).next.1 = true ∧
    ((newRangeIter (some [10, 20])).nextN 4).value = some 10 ∧
    ((RangeIter.mk (α := Nat) none none).nextN 5).next.1 = false := by
  refine ⟨(range_iter_next_value.1 Nat [10, 20] 1 (by decide)).1,
    ?_, range_iter_next_value.2.1 Nat [10, 20],
    (range_iter_next_value.2.2.1 Nat [10, 20] (by decide)).1,
    ?_, range_iter_next_value.2.2.2 Nat none 5⟩
  · have := (range_iter_next_value.1 Nat [10, 20] 1 (by decide)).2
    simpa using this
  · have := (range_iter_next_value.2.2.1 Nat [10, 20] (by decide)).2
    simpa using this

/-! ### Theorems: Part 4 (C1 - C7) -/

/-- On a closed Watchable every operation is a no-op: Update and Watch fail
without touching the state, Get reads, Close is idempotent — and no wake
event is fanned out. -/
theorem wstep_closed_frozen {α : Type} (s : WState α) (op : WOp α)
    (h : s.closed = true) : wstep s op = (s, []) := by
  cases op with
  | updateOp v => simp [wstep, update, h]
  | watchRegister => simp [wstep, watchOp, h]
  | getOp => rfl
  | closeOp => simp [wstep, closeW, h]

/-- A single linearized operation never decreases the version. -/
theorem wstep_version_mono {α : Type} (s : WState α) (op : WOp α) :
    s.version ≤ (wstep s op).1.version := by
  cases op with
  | updateOp v =>
    by_cases h : s.closed = true
    · simp [wstep, update, h]
    · simp [wstep, update, h]
  | watchRegister =>
    by_cases h : s.closed = true
    · simp [wstep, watchOp, h]
    · simp [wstep, watchOp, h]
  | getOp => exact le_rfl
  | closeOp =>
    by_cases h : s.closed = true
    · simp [wstep, closeW, h]
    · simp [wstep, closeW, h]

/-- On a closed Watchable a whole sequence of operations is a no-op with no
wake events. -/
theorem runOps_closed_frozen {α : Type} (s : WState α) (ops : List (WOp α))
    (h : s.closed = true) : runOps s ops = (s, []) := by
  induction ops with
  | nil => rfl
  | cons op rest ih =>
    simp [runOps, wstep_closed_frozen s op h, ih]

/-- A sequence of linearized operations never decreases the version. -/
theorem runOps_version_mono {α : Type} (s : WState α) (ops : List (WOp α)) :
    s.version ≤ (runOps s ops).1.version := by
  induction ops generalizing s with
  | nil => exact le_rfl
  | cons op rest ih =>
    exact le_trans (wstep_version_mono s op) (by simpa [runOps] using ih (wstep s op).1)

/-- A single operation keeps the closed flag once set. -/
theorem wstep_closed_mono {α : Type} (s : WState α) (op : WOp α)
    (h : s.closed = true) : (wstep s op).1.closed = true := by
  rw [wstep_closed_frozen s op h]
  exact h

/-- C1: on an open Watchable every sequence of Update calls succeeds, and
after the N-th update the version has grown by exactly N while Get()
returns the N-th (last) value supplied; prefixes of a longer sequence are
instances of the quantification, so this holds after every step. -/
theorem watchable_update_sequence :
    ∀ (α : Type) (s : WState α) (vs : List α), s.closed = false →
      ∃ s2 : WState α, applyUpdates s vs = some s2 ∧
        s2.version = s.version + vs.length ∧ s2.closed = false ∧
        (∀ x, vs.getLast? = some x → getW s2 = some x) ∧
        (vs = [] → getW s2 = getW s) := by
  intro α s vs
  induction vs generalizing s with
  | nil =>
    intro h
    exact ⟨s, rfl, by simp, h, fun x hx => by simp at hx, fun _ => rfl⟩
  | cons v rest ih =>
    intro h
    have hupd : update s v
        = .ok ({ s with value := some v, version := s.version + 1 },
          s.watches.map WEvent.wake) := by
      simp [update, h]
    obtain ⟨s2, h1, h2, h3, h4, h5⟩ :=
      ih { s with value := some v, version := s.version + 1 } h
    refine ⟨s2, ?_, ?_, h3, ?_, ?_⟩
    · simpa [applyUpdates, hupd] using h1
    · have hv : ({ s with value := some v, version := s.version + 1 } : WState α).version
          = s.version + 1 := rfl
      rw [hv] at h2
      simp [h2]
      omega
    · intro x hx
      cases rest with
      | nil =>
        simp at hx
        subst hx
        have h6 := h5 rfl
        simpa [getW] using h6
      | cons a b =>
        exact h4 x (by simpa using hx)
    · intro habs
      simp at habs

/-- C1 witness: two updates 3 then 7 on a fresh Watchable succeed, raise
the version by 2, and leave Get() at 7. -/
theorem watchable_update_sequence_witness :
    (newWatchable Nat).closed = false ∧
    (∃ s2 : WState Nat, applyUpdates (newWatchable Nat) [3, 7] = some s2 ∧
      s2.version = (newWatchable Nat).version + [3, 7].length ∧ s2.closed = false ∧
      (∀ x, [3, 7].getLast? = some x → getW s2 = some x) ∧
      ([3, 7] = [] → getW s2 = getW (newWatchable Nat))) :=
  ⟨rfl, watchable_update_sequence Nat (newWatchable Nat) [3, 7] rfl⟩

/-- C2: across any sequence of operations the version never decreases;
once closed, a Watchable stays closed and is frozen entirely — no
operation changes value or version, and Get() keeps returning the last
value. -/
theorem watchable_invariants :
    ∀ (α : Type) (s : WState α) (ops : List (WOp α)),
      s.version ≤ (runOps s ops).1.version ∧
      (s.closed = true → (runOps s ops).1.closed = true) ∧
      (s.closed = true → (runOps s ops).1 = s ∧ getW (runOps s ops).1 = getW s) := by
  intro α s ops
  refine ⟨runOps_version_mono s ops, ?_, ?_⟩
  · intro h
    rw [runOps_closed_frozen s ops h]
    exact h
  · intro h
    rw [runOps_closed_frozen s ops h]
    exact ⟨rfl, rfl⟩

/-- C2 witness: on a closed Watchable holding 5 at version 3, an update
and a close leave the state intact and Get() still returns 5. -/
theorem watchable_invariants_witness :
    (⟨some 5, 3, [0], 1, true⟩ : WState Nat).version
        ≤ (runOps (⟨some 5, 3, [0], 1, true⟩ : WState Nat)
            [WOp.updateOp 9, WOp.closeOp]).1.version ∧
    ((⟨some 5, 3, [0], 1, true⟩ : WState Nat).closed = true →
      (runOps (⟨some 5, 3, [0], 1, true⟩ : WState Nat)
          [WOp.updateOp 9, WOp.closeOp]).1.closed = true) ∧
    ((⟨some 5, 3, [0], 1, true⟩ : WState Nat).closed = true →
      (runOps (⟨some 5, 3, [0], 1, true⟩ : WState Nat)
          [WOp.updateOp 9, WOp.closeOp]).1 = ⟨some 5, 3, [0], 1, true⟩ ∧
      getW (runOps (⟨some 5, 3, [0], 1, true⟩ : WState Nat)
          [WOp.updateOp 9, WOp.closeOp]).1 = getW (⟨some 5, 3, [0], 1, true⟩ : WState Nat)) :=
  watchable_invariants Nat ⟨some 5, 3, [0], 1, true⟩ [WOp.updateOp 9, WOp.closeOp]

/-- C3: Watch() on a closed Watchable or Source returns ClosedError; on an
open one it returns a nil error together with a snapshot of the current
value and the identity of the newly registered watch, present in the
registration set. -/
theorem watch_register_spec :
    ∀ (α : Type) (s : WState α) (ss : SState α),
      (s.closed = true → watchOp s = .error .closedError) ∧
      (s.closed = false →
        watchOp s = .ok ({ s with
          watches := s.watches ++ [s.nextId],
          nextId := s.nextId + 1 }, getW s, s.nextId) ∧
        s.nextId ∈ ({ s with
          watches := s.watches ++ [s.nextId],
          nextId := s.nextId + 1 } : WState α).watches) ∧
      (ss.w.closed = true → srcWatch ss = .error .closedError) ∧
      (ss.w.closed = false →
        srcWatch ss = .ok ({ ss.w with
          watches := ss.w.watches ++ [ss.w.nextId],
          nextId := ss.w.nextId + 1 }, srcGet ss, ss.w.nextId)) := by
  intro α s ss
  refine ⟨?_, ?_, ?_, ?_⟩
  · intro h; simp [watchOp, h]
  · intro h; exact ⟨by simp [watchOp, h, getW], by simp⟩
  · intro h; simp [srcWatch, watchOp, h]
  · intro h; simp [srcWatch, watchOp, h, srcGet, getW]

/-- C3 witness: Watch() on a closed Watchable errors; on an open Source it
returns the snapshot 5 and registers watch 0. -/
theorem watch_register_spec_witness :
    ((⟨some 5, 3, [], 0, true⟩ : WState Nat).closed = true →
      watchOp (⟨some 5, 3, [], 0, true⟩ : WState Nat) = .error .closedError) ∧
    ((⟨some 5, 3, [], 0, true⟩ : WState Nat).closed = false →
      watchOp (⟨some 5, 3, [], 0, true⟩ : WState Nat)
        = .ok (⟨some 5, 3, [0], 1, true⟩, some 5, 0) ∧ (0 : Nat) ∈ [0]) ∧
    ((⟨⟨some 5, 3, [], 0, false⟩, false, []⟩ : SState Nat).w.closed = true →
      srcWatch (⟨⟨some 5, 3, [], 0, false⟩, false, []⟩ : SState Nat) = .error .closedError) ∧
    ((⟨⟨some 5, 3, [], 0, false⟩, false, []⟩ : SState Nat).w.closed = false →
      srcWatch (⟨⟨some 5, 3, [], 0, false⟩, false, []⟩ : SState Nat)
        = .ok (⟨some 5, 3, [0], 1, false⟩, some 5, 0)) :=
  watch_register_spec Nat ⟨some 5, 3, [], 0, true⟩ ⟨⟨some 5, 3, [], 0, false⟩, false, []⟩

/-- C4: when Poll() yields the terminal source-closed signal while the
Source is running — after any prefix of value or transient results — the
Source transitions to closed: its closed flag and the owned Watchable's
closed flag become true, exactly prefix-length + 1 Poll() calls are made
(none after the terminal signal), and every Watch registered at that
moment receives the permanent close signal. -/
theorem source_terminal_close :
    ∀ (α : Type) (pre : List (PollRes α)) (s : SState α) (post : List (PollRes α)),
      s.closed = false → s.w.closed = false →
      (∀ r ∈ pre, r ≠ PollRes.terminal) →
      (runPoll s (pre ++ PollRes.terminal :: post)).1.closed = true ∧
      (runPoll s (pre ++ PollRes.terminal :: post)).1.w.closed = true ∧
      (runPoll s (pre ++ PollRes.terminal :: post)).2.2 = pre.length + 1 ∧
      (∀ id ∈ s.w.watches,
        WEvent.closeSig id ∈ (runPoll s (pre ++ PollRes.terminal :: post)).2.1) := by
  intro α pre
  induction pre with
  | nil =>
    intro s post hc hw _
    simp only [List.nil_append, runPoll, hc]
    refine ⟨by simp [srcClose, closeW, hc, hw], by simp [srcClose, closeW, hc, hw],
      by simp [srcClose, hc], ?_⟩
    intro id hid
    simp [srcClose, closeW, hc, hw]
    exact hid
  | cons r pre2 ih =>
    intro s post hc hw hnt
    have hr : r ≠ PollRes.terminal := hnt r (by simp)
    cases r with
    | terminal => exact absurd rfl hr
    | val v =>
      have hupd : update s.w v
          = .ok ({ s.w with value := some v, version := s.w.version + 1 },
            s.w.watches.map WEvent.wake) := by
        simp [update, hw]
      obtain ⟨ih1, ih2, ih3, ih4⟩ :=
        ih ⟨{ s.w with value := some v, version := s.w.version + 1 }, false, s.logged⟩
          post rfl hw (fun r2 h2 => hnt r2 (by simp [h2]))
      simp only [List.cons_append, runPoll, hc, hupd]
      refine ⟨by simpa using ih1, by simpa using ih2, by simpa using ih3, ?_⟩
      intro id hid
      simp only [Bool.false_eq_true, if_false, List.mem_append]
      exact Or.inr (by simpa using ih4 id hid)
    | transient e =>
      obtain ⟨ih1, ih2, ih3, ih4⟩ :=
        ih ⟨s.w, false, s.logged ++ [e]⟩ post rfl hw
          (fun r2 h2 => hnt r2 (by simp [h2]))
      simp only [List.cons_append, runPoll, hc]
      refine ⟨by simpa using ih1, by simpa using ih2, by simpa using ih3, ?_⟩
      intro id hid
      simpa using ih4 id hid

/-- C4 witness: a value, a transient error, the terminal signal, then one
more value: three polls happen, the source and watchable close, and
watches 4 and 5 both receive the close signal. -/
theorem source_terminal_close_witness :
    ((⟨⟨some 1, 1, [4, 5], 6, false⟩, false, []⟩ : SState Nat).closed = false ∧
      (⟨⟨some 1, 1, [4, 5], 6, false⟩, false, []⟩ : SState Nat).w.closed = false ∧
      (∀ r ∈ [PollRes.val 2, PollRes.transient "x"], r ≠ PollRes.terminal)) ∧
    ((runPoll (⟨⟨some 1, 1, [4, 5], 6, false⟩, false, []⟩ : SState Nat)
        ([PollRes.val 2, PollRes.transient "x"] ++ PollRes.terminal :: [PollRes.val 3])).1.closed
        = true ∧
      (runPoll (⟨⟨some 1, 1, [4, 5], 6, false⟩, false, []⟩ : SState Nat)
        ([PollRes.val 2, PollRes.transient "x"] ++ PollRes.terminal :: [PollRes.val 3])).1.w.closed
        = true ∧
      (runPoll (⟨⟨some 1, 1, [4, 5], 6, false⟩, false, []⟩ : SState Nat)
        ([PollRes.val 2, PollRes.transient "x"] ++ PollRes.terminal :: [PollRes.val 3])).2.2
        = [PollRes.val 2, PollRes.transient "x"].length + 1 ∧
      (∀ id ∈ (⟨⟨some 1, 1, [4, 5], 6, false⟩, false, []⟩ : SState Nat).w.watches,
        WEvent.closeSig id ∈ (runPoll (⟨⟨some 1, 1, [4, 5], 6, false⟩, false, []⟩ : SState Nat)
          ([PollRes.val 2, PollRes.transient "x"] ++ PollRes.terminal :: [PollRes.val 3])).2.1)) :=
  ⟨⟨rfl, rfl, by decide⟩,
    source_terminal_close Nat [PollRes.val 2, PollRes.transient "x"]
      ⟨⟨some 1, 1, [4, 5], 6, false⟩, false, []⟩ [PollRes.val 3] rfl rfl (by decide)⟩

/-- C5: a transient poll error is appended to the logger's output and the
loop continues on the remaining results with the same Watchable state and
the Source still open; the step itself applies no Update, fans out no
wake event, and surfaces nothing to Watch consumers. -/
theorem source_transient_continue :
    ∀ (α : Type) (s : SState α) (e : String) (rest : List (PollRes α)),
      s.closed = false →
      runPoll s (PollRes.transient e :: rest)
        = ((runPoll ⟨s.w, s.closed, s.logged ++ [e]⟩ rest).1,
          (runPoll ⟨s.w, s.closed, s.logged ++ [e]⟩ rest).2.1,
          (runPoll ⟨s.w, s.closed, s.logged ++ [e]⟩ rest).2.2 + 1) := by
  intro α s e rest h
  simp [runPoll, h]

/-- C5 witness: polling one transient error logs it, counts one poll, and
leaves the Watchable untouched. -/
theorem source_transient_continue_witness :
    (⟨⟨some 1, 1, [4], 5, false⟩, false, []⟩ : SState Nat).closed = false ∧
    runPoll (⟨⟨some 1, 1, [4], 5, false⟩, false, []⟩ : SState Nat)
        [PollRes.transient "boom"]
      = ((runPoll (⟨⟨some 1, 1, [4], 5, false⟩, false, [] ++ ["boom"]⟩ : SState Nat) []).1,
        (runPoll (⟨⟨some 1, 1, [4], 5, false⟩, false, [] ++ ["boom"]⟩ : SState Nat) []).2.1,
        (runPoll (⟨⟨some 1, 1, [4], 5, false⟩, false, [] ++ ["boom"]⟩ : SState Nat) []).2.2 + 1) :=
  ⟨rfl, source_transient_continue Nat ⟨⟨some 1, 1, [4], 5, false⟩, false, []⟩ "boom" [] rfl⟩

/-- C6: Source.Close() always returns a nil error and leaves the Source
closed; a second call returns the identical state with no events and a
nil error; the last value remains readable unchanged; and n+1 calls end
in the same state as one. -/
theorem source_close_idempotent :
    ∀ (α : Type) (s : SState α) (n : Nat),
      (srcClose s).2.2 = none ∧
      (srcClose s).1.closed = true ∧
      srcClose ((srcClose s).1) = ((srcClose s).1, [], none) ∧
      srcGet ((srcClose s).1) = srcGet s ∧
      srcClosePow s (n + 1) = (srcClose s).1 := by
  intro α s n
  have hcl : (srcClose s).1.closed = true := by
    by_cases h : s.closed = true
    · simp [srcClose, h]
    · simp [srcClose, h]
  have hidem : srcClose ((srcClose s).1) = ((srcClose s).1, [], none) := by
    by_cases h : s.closed = true
    · simp [srcClose, h]
    · simp [srcClose, h]
  refine ⟨?_, hcl, hidem, ?_, ?_⟩
  · by_cases h : s.closed = true
    · simp [srcClose, h]
    · simp [srcClose, h]
  · by_cases h : s.closed = true
    · simp [srcClose, srcGet, getW, h]
    · simp [srcClose, srcGet, getW, closeW, h]
      by_cases h2 : s.w.closed = true
      · simp [h2]
      · simp [h2]
  · induction n with
    | zero => rfl
    | succ m ihm =>
      show (srcClose (srcClosePow s (m + 1))).1 = _
      rw [ihm, hidem]

/-- C6 witness: closing an open source three times equals closing it once,
every call returns a nil error, and Get() is unchanged. -/
theorem source_close_idempotent_witness :
    (srcClose (⟨⟨some 1, 1, [4], 5, false⟩, false, []⟩ : SState Nat)).2.2 = none ∧
    (srcClose (⟨⟨some 1, 1, [4], 5, false⟩, false, []⟩ : SState Nat)).1.closed = true ∧
    srcClose ((srcClose (⟨⟨some 1, 1, [4], 5, false⟩, false, []⟩ : SState Nat)).1)
      = ((srcClose (⟨⟨some 1, 1, [4], 5, false⟩, false, []⟩ : SState Nat)).1, [], none) ∧
    srcGet ((srcClose (⟨⟨some 1, 1, [4], 5, false⟩, false, []⟩ : SState Nat)).1)
      = srcGet (⟨⟨some 1, 1, [4], 5, false⟩, false, []⟩ : SState Nat) ∧
    srcClosePow (⟨⟨some 1, 1, [4], 5, false⟩, false, []⟩ : SState Nat) 3
      = (srcClose (⟨⟨some 1, 1, [4], 5, false⟩, false, []⟩ : SState Nat)).1 :=
  source_close_idempotent Nat ⟨⟨some 1, 1, [4], 5, false⟩, false, []⟩ 2

/-- C7: once Close() has returned (the Watchable is closed) no sequence of
operations wakes any Watch or changes any state; in a race between
Watch() and Close(), linearized by the single lock, either Watch() runs
first, succeeds, and its registered watch receives the close signal when
Close() runs, or Close() runs first and Watch() fails with ClosedError —
never a registration that is silently dropped. -/
theorem close_watch_race :
    ∀ (α : Type) (s : WState α) (ops : List (WOp α)),
      (s.closed = true → runOps s ops = (s, [])) ∧
      (s.closed = false →
        (∀ (s2 : WState α) (v : Option α) (id : Nat), watchOp s = .ok (s2, v, id) →
          WEvent.closeSig id ∈ (closeW s2).2) ∧
        watchOp (closeW s).1 = .error .closedError) := by
  intro α s ops
  refine ⟨fun h => runOps_closed_frozen s ops h, fun h => ⟨?_, ?_⟩⟩
  · intro s2 v id heq
    simp only [watchOp, h, Bool.false_eq_true, if_false, Except.ok.injEq,
      Prod.mk.injEq] at heq
    obtain ⟨hs2, hv, hid⟩ := heq
    subst hs2
    subst hid
    simp [closeW, h]
  · simp [watchOp, closeW, h]

/-- C7 witness: on a closed Watchable two further operations do nothing and
wake nobody; on an open one the watch registered by Watch() is closed by
a subsequent Close(), and Watch() after Close() errors. -/
theorem close_watch_race_witness :
    ((⟨some 5, 3, [0], 1, true⟩ : WState Nat).closed = true →
      runOps (⟨some 5, 3, [0], 1, true⟩ : WState Nat) [WOp.watchRegister, WOp.updateOp 9]
        = (⟨some 5, 3, [0], 1, true⟩, [])) ∧
    ((⟨some 5, 3, [0], 1, false⟩ : WState Nat).closed = false →
      (∀ (s2 : WState Nat) (v : Option Nat) (id : Nat),
        watchOp (⟨some 5, 3, [0], 1, false⟩ : WState Nat) = .ok (s2, v, id) →
          WEvent.closeSig id ∈ (closeW s2).2) ∧
      watchOp (closeW (⟨some 5, 3, [0], 1, false⟩ : WState Nat)).1 = .error .closedError) :=
  ⟨(close_watch_race Nat ⟨some 5, 3, [0], 1, true⟩ [WOp.watchRegister, WOp.updateOp 9]).1,
    (close_watch_race Nat ⟨some 5, 3, [0], 1, false⟩ []).2⟩
end M3x
